import Mathlib

/-!
# Verification of the tnnf framing / multiplexing layer

A shallow embedding of the core of the `tnnf` library
(`Packet.hpp`, `PacketBuffer.hpp`, `TcpSocket.hpp`, `UdpSocket.hpp`,
`Selector.hpp`) together with proofs and refutations of the specified
properties.

Modelling conventions:
* bytes are `ℕ` values; a read of a memory cell as a byte takes the value
  modulo 256 (a C `char` always holds a value below 256, the model therefore
  never loses information on values the C++ program can produce);
* the receive buffer `char*` is modelled as a total function `ℤ → ℕ`
  (flat memory, so that the out-of-bounds accesses the C++ code can perform
  still have a meaning in the model);
* machine-integer wraparound is modelled exactly where it matters:
  the 16-bit loop counter of the buffer-compaction loop in
  `PacketBuffer::buildPackets` (`uint16_t i`), and the conversion of a
  negative `int` receive count to `size_t` in
  `mCurrentlyStoredBytes += receivedBytes`;
* the possibly non-terminating extraction loop of `buildPackets` is embedded
  with explicit fuel; `none` means the loop did not finish within the given
  fuel, and divergence is expressed as `none` for every fuel;
* error reporting through the global callbacks (`gCommonErrorFunction`,
  `gSocketErrorFunction`) is modelled by counting the reported errors.
-/

namespace tnnf

/-- `Packet::EMPTY_PACKET_TYPE` (default value 65535). -/
def EMPTY_PACKET_TYPE : ℕ := 65535

/-- `Packet::maxSize` (default value 65535). -/
def packetMaxSize : ℕ := 65535

/-- The data members of `tnnf::Packet`: `mType`, `mSize` (both `uint16_t`)
and `mData` (a byte string). -/
structure Packet where
  mType : ℕ
  mSize : ℕ
  mData : List ℕ
deriving DecidableEq, Repr

/-- The default constructor `Packet()`: the canonical empty packet
(`mType = EMPTY_PACKET_TYPE`, `mSize = 2*sizeof(uint16_t)`, empty data). -/
def Packet.emptyPacket : Packet :=
  { mType := EMPTY_PACKET_TYPE, mSize := 2 * 2, mData := [] }

/-- The constructor `Packet(const uint16_t& type, const std::string& data)`.
The second component counts the calls to `gCommonErrorFunction`
(the constructor reports `ERROR_PACKET_TOO_BIG` exactly on the oversize
branch). -/
def Packet.construct (type : ℕ) (data : List ℕ) : Packet × ℕ :=
  if type = EMPTY_PACKET_TYPE then
    (Packet.emptyPacket, 0)
  else if data.length > packetMaxSize - 2 * 2 then
    (Packet.emptyPacket, 1)
  else
    ({ mType := type, mSize := data.length + 2 * 2, mData := data }, 0)

/-- The fields of a `tnnf::PacketBuffer` right after construction:
whether `mBuffer` is `nullptr`, and the values of `mSize` and
`mCurrentlyStoredBytes`. -/
structure PacketBufferInit where
  bufferIsNull : Bool
  mSize : ℕ
  mCurrentlyStoredBytes : ℕ
deriving DecidableEq, Repr

/-- The constructor `PacketBuffer(const size_t& size)`.  The second component
counts the errors reported to the error-reporting channel during
construction (the source reports none: the undersized branch only sets
`mSize = 0` and leaves `mBuffer = nullptr`). -/
def PacketBuffer.init (size : ℕ) : PacketBufferInit × ℕ :=
  if packetMaxSize ≤ size then
    ({ bufferIsNull := false, mSize := size, mCurrentlyStoredBytes := 0 }, 0)
  else
    ({ bufferIsNull := true, mSize := 0, mCurrentlyStoredBytes := 0 }, 0)

/-- Reading one byte of buffer memory: a C `char` cell holds a value below
256, so a read reduces the stored value modulo 256. -/
def byteAt (buf : ℤ → ℕ) (i : ℤ) : ℕ := buf i % 256

/-- `ntohs(*((uint16_t*) &buf[i]))`: the 16-bit network-byte-order
(big-endian) value formed by the two bytes at offsets `i` and `i + 1`. -/
def ntohs2 (buf : ℤ → ℕ) (i : ℤ) : ℕ := 256 * byteAt buf i + byteAt buf (i + 1)

/-- Writing the byte list `data` into the buffer starting at offset `off`
(what a `recv`/`recvfrom` call that returned `data` does to
`buffer.getBuffer() + buffer.getCurrentSize()`). -/
def writeList (buf : ℤ → ℕ) (off : ℕ) (data : List ℕ) : ℤ → ℕ :=
  fun j => if 0 ≤ j - (off : ℤ) ∧ j - (off : ℤ) < (data.length : ℤ) then
    data.getD (j - (off : ℤ)).toNat 0
  else buf j

/-- `memset(&buf[off], 0, len)`. -/
def memsetZero (buf : ℤ → ℕ) (off len : ℕ) : ℤ → ℕ :=
  fun j => if (off : ℤ) ≤ j ∧ j < (off : ℤ) + (len : ℤ) then 0 else buf j

/-- The payload-collection loop of `PacketBuffer::buildPackets`:
`for(uint16_t i = 2*sizeof(uint16_t); i < packetSize; i++) ss << mBuffer[i];`
(the bytes at offsets `[4, packetSize)`). -/
def payloadBytes (buf : ℤ → ℕ) (packetSize : ℕ) : List ℕ :=
  (List.range (packetSize - 2 * 2)).map fun k => byteAt buf ((2 * 2 + k : ℕ) : ℤ)

/-- The buffer-compaction loop of `PacketBuffer::buildPackets`:
`for(uint16_t i = packetSize; i < mCurrentlyStoredBytes; i++)
   mBuffer[i - packetSize] = mBuffer[i];`
The counter `i` is a `uint16_t`, so `i++` wraps at 65536, while
`mCurrentlyStoredBytes` is a `size_t`; the write index `i - packetSize` is
computed after integer promotion to `int`, so it can be negative.
The loop is embedded with fuel: `none` means it did not finish within
`fuel` iterations. -/
def shrinkLoop : ℕ → ℕ → ℕ → ℕ → (ℤ → ℕ) → Option (ℤ → ℕ)
  | 0, _, _, _, _ => none
  | fuel + 1, i, packetSize, stored, buf =>
    if i < stored then
      shrinkLoop fuel ((i + 1) % 65536) packetSize stored
        (Function.update buf ((i : ℤ) - (packetSize : ℤ)) (buf (i : ℤ)))
    else some buf

/-- The net effect of a terminating run of the compaction loop (proved
below): the bytes at offsets `[packetSize, stored)` move down to offset 0,
everything else is untouched. -/
def shiftBuf (buf : ℤ → ℕ) (ps stored : ℕ) : ℤ → ℕ :=
  fun j => if 0 ≤ j ∧ j < (stored : ℤ) - (ps : ℤ) then buf (j + (ps : ℤ)) else buf j

/-- One pass of the `while` loop of `PacketBuffer::buildPackets`, with fuel
bounding the number of iterations of the outer loop.  State: buffer
contents, `mCurrentlyStoredBytes`, and the queue `mStoredPackets` (front of
the queue at the head of the list).  The compaction loop gets fuel
`stored + 2`, which is enough for every terminating execution (it performs
`stored - packetSize` iterations when `stored ≤ 65535`, and never
terminates when `stored > 65535` because its 16-bit counter can never
reach `stored`). -/
def buildLoop : ℕ → (ℤ → ℕ) → ℕ → List Packet → Option ((ℤ → ℕ) × ℕ × List Packet)
  | 0, _, _, _ => none
  | fuel + 1, buf, stored, packets =>
    if 2 ≤ stored then
      let packetSize := ntohs2 buf 0
      if packetSize ≤ stored then
        match shrinkLoop (stored + 2) packetSize packetSize stored buf with
        | none => none
        | some buf1 =>
          buildLoop fuel (memsetZero buf1 (stored - packetSize) packetSize)
            (stored - packetSize)
            (packets ++ [(Packet.construct (ntohs2 buf 2) (payloadBytes buf packetSize)).1])
      else some (buf, stored, packets)
    else some (buf, stored, packets)

/-- The state of an operational (successfully constructed) `PacketBuffer`:
the allocated array, `mSize`, `mCurrentlyStoredBytes` and the queue of
completed packets. -/
structure PBState where
  mBuffer : ℤ → ℕ
  mSize : ℕ
  mCurrentlyStoredBytes : ℕ
  mStoredPackets : List Packet

/-- `buildPackets` after the new stored-byte count has been computed.
The outer loop gets fuel `newStored + 2`: every iteration that extracts a
packet of nonzero size decreases the stored count, so a terminating
execution uses at most `newStored + 1` iterations; `none` therefore means
the loop did not terminate. -/
def buildPacketsAt (size : ℕ) (buf : ℤ → ℕ) (newStored : ℕ)
    (packets : List Packet) : Option PBState :=
  (buildLoop (newStored + 2) buf newStored packets).map
    fun r => ⟨r.1, size, r.2.1, r.2.2⟩

/-- `PacketBuffer::buildPackets(const int& receivedBytes)` for a nonnegative
`receivedBytes` (the count a successful `recv` returns):
`mCurrentlyStoredBytes += receivedBytes`, then the extraction loop. -/
def PBState.buildPackets (st : PBState) (receivedBytes : ℕ) : Option PBState :=
  buildPacketsAt st.mSize st.mBuffer (st.mCurrentlyStoredBytes + receivedBytes)
    st.mStoredPackets

/-- `PacketBuffer::isPacketsStored()`. -/
def PBState.isPacketStored (st : PBState) : Bool := !st.mStoredPackets.isEmpty

/-- `PacketBuffer::getPacket()`: pops and returns the front of
`mStoredPackets`.  Calling it on an empty queue is undefined behaviour in
the source (`front()` of an empty `std::queue`), modelled as `none`. -/
def PBState.getPacket (st : PBState) : Option (Packet × PBState) :=
  match st.mStoredPackets with
  | [] => none
  | p :: rest => some (p, { st with mStoredPackets := rest })

/-- A freshly constructed functional `PacketBuffer` of the given size:
zero stored bytes, empty queue (array contents taken as all zero). -/
def freshPB (size : ℕ) : PBState :=
  { mBuffer := fun _ => 0, mSize := size, mCurrentlyStoredBytes := 0,
    mStoredPackets := [] }

/-- The byte stream `TcpSocket::send` produces for one packet: the 16-bit
total length in network byte order, then the 16-bit type in network byte
order, then the payload. -/
def serializePacket (p : Packet) : List ℕ :=
  [p.mSize / 256, p.mSize % 256, p.mType / 256, p.mType % 256] ++ p.mData

/-- Feeding a sequence of received chunks through the buffer: each chunk is
written at offset `mCurrentlyStoredBytes` and `buildPackets` is called with
its length (exactly what each loop iteration of `TcpSocket::receive` does
with the bytes the OS returned). -/
def feedChunks : List (List ℕ) → PBState → Option PBState
  | [], st => some st
  | c :: rest, st =>
    match PBState.buildPackets
        { st with mBuffer := writeList st.mBuffer st.mCurrentlyStoredBytes c }
        c.length with
    | none => none
    | some st' => feedChunks rest st'

/-- The read-safety trace of `TcpSocket::receive(PacketBuffer&, const int&)`.
Each call site of this function corresponds to one point where the loop
issues `::recv(sock, buffer.getBuffer() + buffer.getCurrentSize(),
buffer.getSize()/2, flags)`; the result is `true` iff every issued read
satisfies `getCurrentSize() + getSize()/2 ≤ getSize()` (the requested bytes
fit in the remaining capacity).  The oracle lists the chunks successive
reads return; an empty chunk stands for a read that returned `<= 0`
(hangup or failure, after which the function returns), and an exhausted
oracle stands for a read that blocks forever.  The loop exits as soon as
`isPacketsStored()` holds; a `buildPackets` call that does not terminate
also issues no further reads. -/
def tcpReceiveReadsSafe : List (List ℕ) → PBState → Bool
  | oracle, st =>
    let ok := decide (st.mCurrentlyStoredBytes + st.mSize / 2 ≤ st.mSize)
    match oracle with
    | [] => ok
    | c :: rest =>
      ok && (if c.isEmpty then true
        else
          match PBState.buildPackets
              { st with
                mBuffer := writeList st.mBuffer st.mCurrentlyStoredBytes c }
              c.length with
          | none => true
          | some st' => st'.isPacketStored || tcpReceiveReadsSafe rest st')

/-- The mod used for the C `size_t` (64-bit). -/
def SIZE_T_MOD : ℕ := 2 ^ 64

/-- One iteration of `UdpSocket::receive(PacketBuffer& buffer, const int&
flags)` in which `::recvfrom` returned `r ≤ 0`: the source reports the
error (`ERROR_SOCKET_HANGUP` for 0, `ERROR_SOCKET_RECEIVE` for a negative
count) but — unlike every other receive variant — does not return, so it
falls through to `buffer.buildPackets(currentlyReceived)`, where
`mCurrentlyStoredBytes += receivedBytes` converts the negative `int` to
`size_t` (mod `2^64`).  First component: errors reported; second: the
resulting buffer state (`none` when `buildPackets` does not terminate). -/
def udpReceiveNoAddrFailStep (st : PBState) (r : ℤ) : ℕ × Option PBState :=
  (1, buildPacketsAt st.mSize st.mBuffer
    (((st.mCurrentlyStoredBytes : ℤ) + r).emod (SIZE_T_MOD : ℤ)).toNat
    st.mStoredPackets)

/-- The state of a `tnnf::Selector`: the tracked sockets in insertion order
(identified by their descriptors, cf. `Socket::operator==`), the three
optional user-provided output arrays together with their current (possibly
stale) contents, and the cached `mSocketsMax`.  The `fd_set*` members
mirror the nullness of the corresponding array pointers (`setWritable`
etc. always set the two together). -/
structure SelectorSt where
  mSockets : List ℕ
  mWritable : Option (List ℕ)
  mReadable : Option (List ℕ)
  mFaulty : Option (List ℕ)
  mSocketsMax : ℕ
deriving DecidableEq, Repr

/-- `Selector::clearTemp()`: clear each user-provided array that is present. -/
def Selector.clearTemp (st : SelectorSt) : SelectorSt :=
  { st with
    mWritable := st.mWritable.map fun _ => [],
    mReadable := st.mReadable.map fun _ => [],
    mFaulty := st.mFaulty.map fun _ => [] }

/-- The outcome of the OS `select` call: timeout (returns 0), failure
(returns -1), or ready with the per-class sets of flagged descriptors and
a positive count. -/
inductive SelectOutcome where
  | timeout
  | fail
  | ready (r w e : List ℕ) (count : ℕ)
deriving DecidableEq, Repr

/-- `Selector::update()`.  Result: the returned status, whether the OS
`select` call was made, the number of errors reported to the
error-reporting channel (the source reports none anywhere in `update`),
and the new state.  With all three output arrays absent the source returns
-2 without touching anything; on `select` returning `<= 0` it calls
`clearTemp()` and returns the status; otherwise it clears and repopulates
each present array with the tracked sockets whose descriptor is flagged,
in tracked-insertion order. -/
def Selector.update (st : SelectorSt) (os : SelectOutcome) :
    ℤ × Bool × ℕ × SelectorSt :=
  if st.mReadable.isSome ∨ st.mWritable.isSome ∨ st.mFaulty.isSome then
    match os with
    | .timeout => (0, true, 0, Selector.clearTemp st)
    | .fail => (-1, true, 0, Selector.clearTemp st)
    | .ready r w e count =>
      ((count : ℤ) + 1, true, 0,
        { st with
          mWritable := st.mWritable.map fun _ => st.mSockets.filter (· ∈ w),
          mReadable := st.mReadable.map fun _ => st.mSockets.filter (· ∈ r),
          mFaulty := st.mFaulty.map fun _ => st.mSockets.filter (· ∈ e) })
  else (-2, false, 0, st)

/-- `Selector::add(SocketType& sock)` restricted to the members `remove`
and the invariant depend on: append the descriptor to `mSockets` and bump
`mSocketsMax` when the new descriptor is larger.  Descriptors of live
sockets are nonnegative `int`s, modelled as `ℕ`. -/
def Selector.add (st : SelectorSt) (d : ℕ) : SelectorSt :=
  { st with
    mSockets := st.mSockets ++ [d],
    mSocketsMax := if st.mSocketsMax < d then d else st.mSocketsMax }

/-- The recomputation scan at the end of `Selector::remove`:
`for(auto& i : mSockets) if(i->getSocket() > mSocketsMax) mSocketsMax = ...`,
starting from the current value of `mSocketsMax`. -/
def selectorScanMax (l : List ℕ) (start : ℕ) : ℕ :=
  l.foldl (fun m x => if m < x then x else m) start

/-- `Selector::remove(Socket& sock)`: erase the first tracked socket whose
descriptor equals `sock`'s (`Socket::operator==` compares descriptors);
when the erased descriptor equals `mSocketsMax`, zero it; afterwards, when
`mSocketsMax == 0`, recompute it by scanning the remaining sockets. -/
def Selector.remove (st : SelectorSt) (d : ℕ) : SelectorSt :=
  let max1 :=
    if d ∈ st.mSockets then
      if d = st.mSocketsMax then 0 else st.mSocketsMax
    else st.mSocketsMax
  let socks := st.mSockets.erase d
  { st with
    mSockets := socks,
    mSocketsMax := if max1 = 0 then selectorScanMax socks 0 else max1 }

/-- A sequence element of `add` / `remove` calls on a `Selector`. -/
inductive SelOp where
  | addOp (d : ℕ)
  | removeOp (d : ℕ)
deriving DecidableEq, Repr

/-- Applying a sequence of `add` / `remove` calls. -/
def applyOps : List SelOp → SelectorSt → SelectorSt
  | [], st => st
  | .addOp d :: rest, st => applyOps rest (Selector.add st d)
  | .removeOp d :: rest, st => applyOps rest (Selector.remove st d)

/-- The maximum of a descriptor list, 0 for the empty list (the value
`mSocketsMax` is specified to cache). -/
def listMax (l : List ℕ) : ℕ := l.foldr max 0

/-- A freshly constructed selector with the given output arrays and no
tracked sockets. -/
def freshSelector (r w f : Option (List ℕ)) : SelectorSt :=
  { mSockets := [], mWritable := w, mReadable := r, mFaulty := f,
    mSocketsMax := 0 }

/-- A packet as the `Packet(type, data)` constructor produces it on its
normal branch (the shape of every "well-formed serialized message"):
reconstructing the packet from its own type and payload reproduces it, the
declared size is the payload length plus the 4 header bytes, the type fits
16 bits, and every payload byte fits one `char` cell. -/
def wfPacket (p : Packet) : Prop :=
  (Packet.construct p.mType p.mData).1 = p ∧ p.mSize = p.mData.length + 4 ∧
    p.mType < 65536 ∧ ∀ b ∈ p.mData, b < 256

instance wfPacketDecidable (p : Packet) : Decidable (wfPacket p) :=
  decidable_of_iff ((Packet.construct p.mType p.mData).1 = p ∧
    p.mSize = p.mData.length + 4 ∧ p.mType < 65536 ∧ ∀ b ∈ p.mData, b < 256)
    Iff.rfl

/-! ## Basic facts about the byte-level primitives -/

theorem byteAt_lt (buf : ℤ → ℕ) (i : ℤ) : byteAt buf i < 256 :=
  Nat.mod_lt _ (by norm_num)

theorem ntohs2_lt (buf : ℤ → ℕ) (i : ℤ) : ntohs2 buf i < 65536 := by
  have h1 := byteAt_lt buf i
  have h2 := byteAt_lt buf (i + 1)
  unfold ntohs2
  omega

theorem ntohs2_le (buf : ℤ → ℕ) (i : ℤ) : ntohs2 buf i ≤ 65535 :=
  Nat.lt_succ_iff.mp (ntohs2_lt buf i)

theorem writeList_at (buf : ℤ → ℕ) (off k : ℕ) (data : List ℕ)
    (hk : k < data.length) :
    writeList buf off data ((off : ℤ) + (k : ℤ)) = data.getD k 0 := by
  unfold writeList
  rw [if_pos]
  · norm_num
  · constructor <;> [omega; (push_cast; omega)]

theorem writeList_lt (buf : ℤ → ℕ) (off : ℕ) (data : List ℕ) (j : ℤ)
    (hj : j < (off : ℤ)) : writeList buf off data j = buf j := by
  unfold writeList
  rw [if_neg]
  omega

theorem writeList_ge (buf : ℤ → ℕ) (off : ℕ) (data : List ℕ) (j : ℤ)
    (hj : (off : ℤ) + data.length ≤ j) : writeList buf off data j = buf j := by
  unfold writeList
  rw [if_neg]
  omega

theorem writeList_at' (buf : ℤ → ℕ) (off k : ℕ) (data : List ℕ)
    (hk : k < data.length) (j : ℤ) (hj : j = (off : ℤ) + (k : ℤ)) :
    writeList buf off data j = data.getD k 0 := by
  subst hj
  exact writeList_at buf off k data hk

/-! ## Facts about the `Packet` constructor -/

theorem Packet.construct_normal (k : ℕ) (d : List ℕ)
    (hk : k ≠ EMPTY_PACKET_TYPE) (hd : d.length ≤ packetMaxSize - 2 * 2) :
    Packet.construct k d = ({ mType := k, mSize := d.length + 2 * 2, mData := d }, 0) := by
  unfold Packet.construct
  rw [if_neg hk, if_neg (by omega)]

theorem Packet.construct_idem (k : ℕ) (d : List ℕ) :
    (Packet.construct (Packet.construct k d).1.mType
      (Packet.construct k d).1.mData).1 = (Packet.construct k d).1 := by
  by_cases h1 : k = EMPTY_PACKET_TYPE
  · have hkd : Packet.construct k d = (Packet.emptyPacket, 0) := by
      unfold Packet.construct
      rw [if_pos h1]
    rw [hkd]
    rfl
  · by_cases h2 : d.length > packetMaxSize - 2 * 2
    · have hkd : Packet.construct k d = (Packet.emptyPacket, 1) := by
        unfold Packet.construct
        rw [if_neg h1, if_pos h2]
      rw [hkd]
      rfl
    · have hkd := Packet.construct_normal k d h1 (by omega)
      rw [hkd]
      exact congrArg Prod.fst (Packet.construct_normal k d h1 (by omega))

/-! ## C5: oversize rejection in the `Packet` constructor -/

/-- C5 — Constructing a `Packet` with `kind != EMPTY_PACKET_TYPE` and a
payload longer than `maxSize - 4` (in particular of length
`maxSize - 4 + 1`) yields the canonical empty packet and reports exactly
one error; a payload of length exactly `maxSize - 4` is accepted with no
error. -/
theorem oversize_rejection (kind : ℕ) (data : List ℕ)
    (hk : kind ≠ EMPTY_PACKET_TYPE) :
    (packetMaxSize - 4 < data.length →
      Packet.construct kind data = (Packet.emptyPacket, 1)) ∧
    (data.length = packetMaxSize - 4 →
      Packet.construct kind data =
        ({ mType := kind, mSize := data.length + 4, mData := data }, 0)) := by
  constructor
  · intro hlen
    unfold Packet.construct
    rw [if_neg hk, if_pos]
    revert hlen
    unfold packetMaxSize
    omega
  · intro hlen
    rw [Packet.construct_normal kind data hk (by omega)]

/-- C5 witness: at `kind = 1`, a payload of length 65532 is rejected with
exactly one reported error, and a payload of length 65531 is accepted with
none. -/
theorem oversize_rejection_witness :
    Packet.construct 1 (List.replicate 65532 0) = (Packet.emptyPacket, 1) ∧
    Packet.construct 1 (List.replicate 65531 0) =
      ({ mType := 1, mSize := 65535, mData := List.replicate 65531 0 }, 0) := by
  constructor
  · exact (oversize_rejection 1 (List.replicate 65532 0) (by decide)).1
      (by rw [List.length_replicate]; decide)
  · have h := (oversize_rejection 1 (List.replicate 65531 0) (by decide)).2
      (by rw [List.length_replicate]; decide)
    rw [List.length_replicate] at h
    exact h

/-! ## C6: construction of an undersized `PacketBuffer` -/

/-- C6 counterexample — constructing a `PacketBuffer` with size 100
(`< Packet::maxSize`) reports **zero** errors to the error-reporting
channel (the claim asserts an undersized-buffer error is reported); the
buffer is merely left with a null array and `mSize = 0` silently. -/
theorem undersized_buffer_no_error :
    PacketBuffer.init 100 =
      ({ bufferIsNull := true, mSize := 0, mCurrentlyStoredBytes := 0 }, 0) := by
  rfl

/-- C6 amended — constructing a `PacketBuffer` with `size < Packet::maxSize`
leaves the buffer non-functional (`getSize() == 0`, null array) but reports
**no** error; with `size >= Packet::maxSize` it records exactly the
requested size with zero stored bytes (and reports no error either). -/
theorem undersized_buffer_behaviour (size : ℕ) :
    (size < packetMaxSize →
      PacketBuffer.init size =
        ({ bufferIsNull := true, mSize := 0, mCurrentlyStoredBytes := 0 }, 0)) ∧
    (packetMaxSize ≤ size →
      PacketBuffer.init size =
        ({ bufferIsNull := false, mSize := size, mCurrentlyStoredBytes := 0 }, 0)) := by
  constructor
  · intro h
    unfold PacketBuffer.init
    rw [if_neg (by omega)]
  · intro h
    unfold PacketBuffer.init
    rw [if_pos h]

/-- C6 witness: the amended statement evaluated at sizes 100 and 65535. -/
theorem undersized_buffer_behaviour_witness :
    PacketBuffer.init 100 =
      ({ bufferIsNull := true, mSize := 0, mCurrentlyStoredBytes := 0 }, 0) ∧
    PacketBuffer.init 65535 =
      ({ bufferIsNull := false, mSize := 65535, mCurrentlyStoredBytes := 0 }, 0) :=
  ⟨(undersized_buffer_behaviour 100).1 (by decide),
   (undersized_buffer_behaviour 65535).2 (by decide)⟩

/-! ## The compaction loop -/

theorem shrinkLoop_none (stored : ℕ) (hst : 65535 < stored) :
    ∀ fuel i ps buf, i ≤ 65535 → shrinkLoop fuel i ps stored buf = none := by
  intro fuel
  induction fuel with
  | zero => intro i ps buf _; rfl
  | succ fuel ih =>
    intro i ps buf hi
    unfold shrinkLoop
    rw [if_pos (by omega)]
    exact ih _ ps _ (Nat.lt_succ_iff.mp (Nat.mod_lt _ (by norm_num)))

theorem shrinkLoop_run (ps stored : ℕ) (hst : stored ≤ 65535) :
    ∀ fuel i buf, ps ≤ i → i ≤ stored → stored - i < fuel →
      shrinkLoop fuel i ps stored buf =
        some (fun j =>
          if (i : ℤ) - (ps : ℤ) ≤ j ∧ j < (stored : ℤ) - (ps : ℤ) then
            buf (j + (ps : ℤ))
          else buf j) := by
  intro fuel
  induction fuel with
  | zero => intro i buf _ _ h; omega
  | succ fuel ih =>
    intro i buf hpi his hfuel
    by_cases hi : i < stored
    · unfold shrinkLoop
      rw [if_pos hi]
      have hmod : (i + 1) % 65536 = i + 1 := Nat.mod_eq_of_lt (by omega)
      rw [hmod, ih (i + 1) _ (by omega) (by omega) (by omega)]
      congr 1
      funext j
      simp only [Function.update_apply]
      split_ifs <;> first | rfl | (congr 1; omega)
    · unfold shrinkLoop
      rw [if_neg hi]
      congr 1
      funext j
      rw [if_neg (by omega)]

theorem shrinkLoop_start (ps stored : ℕ) (buf : ℤ → ℕ)
    (hps : ps ≤ stored) (hst : stored ≤ 65535) :
    shrinkLoop (stored + 2) ps ps stored buf = some (shiftBuf buf ps stored) := by
  rw [shrinkLoop_run ps stored hst (stored + 2) ps buf le_rfl hps (by omega)]
  congr 1
  funext j
  unfold shiftBuf
  by_cases hj : 0 ≤ j ∧ j < (stored : ℤ) - (ps : ℤ)
  · rw [if_pos (by omega), if_pos hj]
  · rw [if_neg (by omega), if_neg hj]

/-! ## The extraction loop -/

theorem buildLoop_succ (fuel : ℕ) (buf : ℤ → ℕ) (stored : ℕ) (pk : List Packet) :
    buildLoop (fuel + 1) buf stored pk =
      if 2 ≤ stored then
        if ntohs2 buf 0 ≤ stored then
          match shrinkLoop (stored + 2) (ntohs2 buf 0) (ntohs2 buf 0) stored buf with
          | none => none
          | some buf1 =>
            buildLoop fuel
              (memsetZero buf1 (stored - ntohs2 buf 0) (ntohs2 buf 0))
              (stored - ntohs2 buf 0)
              (pk ++ [(Packet.construct (ntohs2 buf 2)
                (payloadBytes buf (ntohs2 buf 0))).1])
        else some (buf, stored, pk)
      else some (buf, stored, pk) := rfl

theorem buildLoop_noop (buf : ℤ → ℕ) (stored : ℕ) (pk : List Packet)
    (h : stored < 2 ∨ stored < ntohs2 buf 0) (fuel : ℕ) :
    buildLoop (fuel + 1) buf stored pk = some (buf, stored, pk) := by
  rw [buildLoop_succ]
  by_cases h1 : 2 ≤ stored
  · rw [if_pos h1, if_neg (by omega)]
  · rw [if_neg h1]

theorem buildLoop_noop' (buf : ℤ → ℕ) (stored : ℕ) (pk : List Packet)
    (h : stored < 2 ∨ stored < ntohs2 buf 0) :
    ∀ fuel, 1 ≤ fuel → buildLoop fuel buf stored pk = some (buf, stored, pk) := by
  intro fuel hf
  cases fuel with
  | zero => omega
  | succ f => exact buildLoop_noop buf stored pk h f

theorem buildLoop_extract (buf : ℤ → ℕ) (stored : ℕ) (pk : List Packet)
    (h1 : 2 ≤ stored) (h2 : ntohs2 buf 0 ≤ stored) (h3 : stored ≤ 65535)
    (fuel : ℕ) :
    buildLoop (fuel + 1) buf stored pk =
      buildLoop fuel
        (memsetZero (shiftBuf buf (ntohs2 buf 0) stored) (stored - ntohs2 buf 0)
          (ntohs2 buf 0))
        (stored - ntohs2 buf 0)
        (pk ++ [(Packet.construct (ntohs2 buf 2) (payloadBytes buf (ntohs2 buf 0))).1]) := by
  rw [buildLoop_succ, if_pos h1, if_pos h2,
    shrinkLoop_start (ntohs2 buf 0) stored buf h2 h3]

theorem buildLoop_shrink_none (buf : ℤ → ℕ) (stored : ℕ) (pk : List Packet)
    (h1 : 2 ≤ stored) (h2 : ntohs2 buf 0 ≤ stored)
    (h3 : shrinkLoop (stored + 2) (ntohs2 buf 0) (ntohs2 buf 0) stored buf = none) :
    ∀ fuel, buildLoop fuel buf stored pk = none := by
  intro fuel
  cases fuel with
  | zero => rfl
  | succ fuel =>
    rw [buildLoop_succ, if_pos h1, if_pos h2, h3]

theorem buildLoop_stored_le :
    ∀ fuel (buf : ℤ → ℕ) stored pk r, buildLoop fuel buf stored pk = some r →
      r.2.1 ≤ 65534 := by
  intro fuel
  induction fuel with
  | zero => intro buf stored pk r h; exact Option.noConfusion h
  | succ fuel ih =>
    intro buf stored pk r h
    rw [buildLoop_succ] at h
    by_cases h1 : 2 ≤ stored
    · rw [if_pos h1] at h
      by_cases h2 : ntohs2 buf 0 ≤ stored
      · rw [if_pos h2] at h
        cases hs : shrinkLoop (stored + 2) (ntohs2 buf 0) (ntohs2 buf 0) stored buf with
        | none => rw [hs] at h; exact absurd h (by simp)
        | some buf1 => rw [hs] at h; exact ih _ _ _ _ h
      · rw [if_neg h2] at h
        have hps := ntohs2_le buf 0
        cases h
        simp only
        omega
    · rw [if_neg h1] at h
      cases h
      simp only
      omega

theorem memsetZero_zero_len (buf : ℤ → ℕ) (off : ℕ) :
    memsetZero buf off 0 = buf := by
  funext j
  unfold memsetZero
  rw [if_neg (by omega)]

theorem shiftBuf_zero (buf : ℤ → ℕ) (stored : ℕ) :
    shiftBuf buf 0 stored = buf := by
  funext j
  unfold shiftBuf
  by_cases hj : 0 ≤ j ∧ j < (stored : ℤ) - ((0 : ℕ) : ℤ)
  · rw [if_pos hj]
    norm_num
  · rw [if_neg hj]

theorem buildLoop_zero_diverge (buf : ℤ → ℕ) (stored : ℕ)
    (h1 : 2 ≤ stored) (h0 : ntohs2 buf 0 = 0) :
    ∀ fuel pk, buildLoop fuel buf stored pk = none := by
  by_cases h3 : stored ≤ 65535
  · intro fuel
    induction fuel with
    | zero => intro pk; rfl
    | succ fuel ih =>
      intro pk
      rw [buildLoop_extract buf stored pk h1 (by omega) h3 fuel, h0]
      rw [shiftBuf_zero, Nat.sub_zero, memsetZero_zero_len]
      exact ih _
  · intro fuel pk
    exact buildLoop_shrink_none buf stored pk h1 (by omega)
      (by rw [h0]; exact shrinkLoop_none stored (by omega) _ 0 0 buf (by omega)) fuel

theorem buildLoop_none_diverge :
    ∀ F (buf : ℤ → ℕ) stored pk, stored ≤ 65535 → stored + 2 ≤ F →
      buildLoop F buf stored pk = none →
      ∀ fuel, buildLoop fuel buf stored pk = none := by
  intro F
  induction F with
  | zero => intro buf stored pk _ h; omega
  | succ F ih =>
    intro buf stored pk h3 hF hnone
    by_cases h1 : 2 ≤ stored
    · by_cases h2 : ntohs2 buf 0 ≤ stored
      · by_cases h0 : ntohs2 buf 0 = 0
        · exact fun fuel => buildLoop_zero_diverge buf stored h1 h0 fuel pk
        · rw [buildLoop_extract buf stored pk h1 h2 h3 F] at hnone
          have ih' := ih _ _ _ (by omega) (by omega) hnone
          intro fuel
          cases fuel with
          | zero => rfl
          | succ fuel =>
            rw [buildLoop_extract buf stored pk h1 h2 h3 fuel]
            exact ih' fuel
      · rw [buildLoop_noop buf stored pk (by omega) F] at hnone
        exact absurd hnone (by simp)
    · rw [buildLoop_noop buf stored pk (by omega) F] at hnone
      exact absurd hnone (by simp)

/-! ## C10: termination of `buildPackets` -/

/-- C10 counterexample — a buffer whose first two bytes decode to a total
length of 0: `buildPackets` never reaches a stop condition (the extraction
loop re-extracts a zero-length packet forever without consuming a byte),
so the fuelled embedding returns `none`. -/
theorem build_packets_zero_length_diverges :
    PBState.buildPackets
      { freshPB 65535 with mBuffer := writeList (fun _ => 0) 0 [0, 0] } 2 = none := by
  have h0 : ntohs2 (writeList (fun _ => 0) 0 [0, 0]) 0 = 0 := by rfl
  unfold PBState.buildPackets buildPacketsAt
  rw [buildLoop_zero_diverge _ _ (by norm_num) h0]
  rfl

/-- C10 amended — the extraction loop of `buildPackets` does **not**
terminate for every buffer content: whenever the leading 16-bit length
field decodes to 0 and at least 2 bytes are stored, the loop never reaches
a stop condition (first conjunct: every fuel yields `none`).  In every
other case the standard fuel `stored + 2` is adequate: for a stored count
of at most 65535, if the loop does not finish within that fuel it never
finishes at all (second conjunct), so `none` results exactly characterize
genuine divergence. -/
theorem build_packets_termination (buf : ℤ → ℕ) (stored : ℕ) (pk : List Packet) :
    (2 ≤ stored → ntohs2 buf 0 = 0 →
      ∀ fuel, buildLoop fuel buf stored pk = none) ∧
    (stored ≤ 65535 → buildLoop (stored + 2) buf stored pk = none →
      ∀ fuel, buildLoop fuel buf stored pk = none) := by
  constructor
  · intro h1 h0 fuel
    exact buildLoop_zero_diverge buf stored h1 h0 fuel pk
  · intro h3 hnone
    exact buildLoop_none_diverge (stored + 2) buf stored pk h3 le_rfl hnone

/-- C10 witness: the divergence conjunct applied at the concrete buffer
holding the bytes `[0, 0]`. -/
theorem build_packets_termination_witness :
    buildLoop 17 (writeList (fun _ => 0) 0 [0, 0]) 2 [] = none :=
  (build_packets_termination (writeList (fun _ => 0) 0 [0, 0]) 2 []).1
    (by norm_num) (by rfl) 17

/-! ## C4: the header threshold of the extraction loop -/

/-- C4 counterexample — with exactly 2 stored bytes `[0x00, 0x02]` the
extraction loop does **not** stop: the loop guard is
`mCurrentlyStoredBytes >= sizeof(uint16_t)` (2 bytes, not 4), the length
field decodes to 2 which is `≤` the stored count, and a `Packet` (with its
type read from bytes the buffer never received) is constructed and queued
while the two stored bytes are consumed. -/
theorem two_byte_packet_extracted :
    (PBState.buildPackets
        { freshPB 65535 with mBuffer := writeList (fun _ => 0) 0 [0, 2] } 2).map
      (fun st => (st.mCurrentlyStoredBytes, st.mStoredPackets)) =
    some (0, [{ mType := 0, mSize := 4, mData := [] }]) := by
  rfl

/-- C4 amended — the extraction loop of `buildPackets` stops (reading no
header field) only when fewer than **2** bytes are stored.  With at least
2 stored bytes it always reads the 16-bit length field; it stops, leaving
buffer and queue unchanged, exactly when the decoded length exceeds the
stored count — in particular with 2 or 3 stored bytes whose decoded
length field is larger than the stored count.  When the decoded length is
at most the stored count (still possible with only 2 or 3 stored bytes) a
`Packet` is constructed and appended to the queue. -/
theorem header_wait_threshold (buf : ℤ → ℕ) (stored : ℕ) (pk : List Packet)
    (fuel : ℕ) :
    (stored < 2 → buildLoop (fuel + 1) buf stored pk = some (buf, stored, pk)) ∧
    (2 ≤ stored → stored < ntohs2 buf 0 →
      buildLoop (fuel + 1) buf stored pk = some (buf, stored, pk)) ∧
    (2 ≤ stored → stored ≤ 65535 → ntohs2 buf 0 ≤ stored →
      buildLoop (fuel + 1) buf stored pk =
        buildLoop fuel
          (memsetZero (shiftBuf buf (ntohs2 buf 0) stored)
            (stored - ntohs2 buf 0) (ntohs2 buf 0))
          (stored - ntohs2 buf 0)
          (pk ++ [(Packet.construct (ntohs2 buf 2)
            (payloadBytes buf (ntohs2 buf 0))).1])) :=
  ⟨fun h => buildLoop_noop buf stored pk (Or.inl h) fuel,
   fun _ h => buildLoop_noop buf stored pk (Or.inr h) fuel,
   fun h1 h3 h2 => buildLoop_extract buf stored pk h1 h2 h3 fuel⟩

/-- C4 witness: the three conjuncts applied at concrete states — 1 stored
byte (stop), 3 stored bytes `[0, 9, 0]` whose length field decodes to 9
(stop, bytes kept), and 2 stored bytes `[0, 2]` whose length field decodes
to 2 (a packet is extracted). -/
theorem header_wait_threshold_witness :
    buildLoop 3 (fun _ => 0) 1 [] = some (fun _ => 0, 1, []) ∧
    buildLoop 3 (writeList (fun _ => 0) 0 [0, 9, 0]) 3 [] =
      some (writeList (fun _ => 0) 0 [0, 9, 0], 3, []) ∧
    buildLoop 3 (writeList (fun _ => 0) 0 [0, 2]) 2 [] =
      buildLoop 2
        (memsetZero (shiftBuf (writeList (fun _ => 0) 0 [0, 2])
          (ntohs2 (writeList (fun _ => 0) 0 [0, 2]) 0) 2)
          (2 - ntohs2 (writeList (fun _ => 0) 0 [0, 2]) 0)
          (ntohs2 (writeList (fun _ => 0) 0 [0, 2]) 0))
        (2 - ntohs2 (writeList (fun _ => 0) 0 [0, 2]) 0)
        ([] ++ [(Packet.construct (ntohs2 (writeList (fun _ => 0) 0 [0, 2]) 2)
          (payloadBytes (writeList (fun _ => 0) 0 [0, 2])
            (ntohs2 (writeList (fun _ => 0) 0 [0, 2]) 0))).1]) :=
  ⟨(header_wait_threshold (fun _ => 0) 1 [] 2).1 (by norm_num),
   (header_wait_threshold (writeList (fun _ => 0) 0 [0, 9, 0]) 3 [] 2).2.1
     (by norm_num) (by decide),
   (header_wait_threshold (writeList (fun _ => 0) 0 [0, 2]) 2 [] 2).2.2
     (by norm_num) (by norm_num) (by decide)⟩

/-! ## The selector: `mSocketsMax` bookkeeping -/

theorem listMax_cons (x : ℕ) (l : List ℕ) :
    listMax (x :: l) = max x (listMax l) := rfl

theorem foldr_max_init (l : List ℕ) :
    ∀ a : ℕ, l.foldr max a = max (l.foldr max 0) a := by
  induction l with
  | nil => intro a; simp
  | cons x t ih =>
    intro a
    simp only [List.foldr]
    rw [ih a]
    omega

theorem listMax_append_single (l : List ℕ) (d : ℕ) :
    listMax (l ++ [d]) = max (listMax l) d := by
  unfold listMax
  rw [List.foldr_append]
  simp only [List.foldr]
  rw [foldr_max_init l (max d 0)]
  omega

theorem listMax_ge (l : List ℕ) (x : ℕ) (hx : x ∈ l) : x ≤ listMax l := by
  induction l with
  | nil => cases hx
  | cons y t ih =>
    rw [listMax_cons]
    rcases List.mem_cons.mp hx with h | h
    · omega
    · have := ih h
      omega

theorem listMax_mem (l : List ℕ) (h : 0 < listMax l) : listMax l ∈ l := by
  induction l with
  | nil => simp [listMax] at h
  | cons y t ih =>
    rw [listMax_cons] at h ⊢
    by_cases hy : listMax t ≤ y
    · have heq : max y (listMax t) = y := by omega
      rw [heq]
      exact List.mem_cons_self y t
    · have heq : max y (listMax t) = listMax t := by omega
      rw [heq]
      exact List.mem_cons_of_mem y (ih (by omega))

theorem listMax_le_of_forall (l : List ℕ) (m : ℕ) (h : ∀ x ∈ l, x ≤ m) :
    listMax l ≤ m := by
  induction l with
  | nil => simp [listMax]
  | cons y t ih =>
    rw [listMax_cons]
    have h1 := h y (List.mem_cons_self y t)
    have h2 := ih fun x hx => h x (List.mem_cons_of_mem y hx)
    omega

theorem selectorScanMax_eq (l : List ℕ) :
    ∀ s : ℕ, selectorScanMax l s = max s (listMax l) := by
  induction l with
  | nil => intro s; simp [selectorScanMax, listMax]
  | cons x t ih =>
    intro s
    unfold selectorScanMax at ih ⊢
    simp only [List.foldl]
    rw [ih, listMax_cons]
    by_cases hsx : s < x
    · rw [if_pos hsx]
      omega
    · rw [if_neg hsx]
      omega

theorem selector_add_inv (st : SelectorSt) (d : ℕ)
    (h : st.mSocketsMax = listMax st.mSockets) :
    (Selector.add st d).mSocketsMax = listMax (Selector.add st d).mSockets := by
  unfold Selector.add
  simp only
  rw [listMax_append_single, ← h]
  by_cases hlt : st.mSocketsMax < d
  · rw [if_pos hlt]
    omega
  · rw [if_neg hlt]
    omega

theorem selector_remove_inv (st : SelectorSt) (d : ℕ)
    (h : st.mSocketsMax = listMax st.mSockets) :
    (Selector.remove st d).mSocketsMax =
      listMax (Selector.remove st d).mSockets := by
  unfold Selector.remove
  simp only
  by_cases hmem : d ∈ st.mSockets
  · by_cases hd : d = st.mSocketsMax
    · rw [if_pos hmem, if_pos hd]
      have hz : (if (0 : ℕ) = 0 then
          selectorScanMax (st.mSockets.erase d) 0 else 0) =
          selectorScanMax (st.mSockets.erase d) 0 := by norm_num
      rw [hz, selectorScanMax_eq]
      omega
    · rw [if_pos hmem, if_neg hd]
      have hne : st.mSocketsMax ≠ 0 := by
        have := listMax_ge st.mSockets d hmem
        omega
      rw [if_neg hne]
      have hmax_mem : st.mSocketsMax ∈ st.mSockets.erase d := by
        rw [List.mem_erase_of_ne (by omega)]
        rw [h]
        exact listMax_mem _ (by omega)
      have h1 : st.mSocketsMax ≤ listMax (st.mSockets.erase d) :=
        listMax_ge _ _ hmax_mem
      have h2 : listMax (st.mSockets.erase d) ≤ st.mSocketsMax := by
        apply listMax_le_of_forall
        intro x hx
        rw [h]
        exact listMax_ge _ _ (List.erase_subset _ _ hx)
      omega
  · rw [if_neg hmem, List.erase_of_not_mem hmem]
    by_cases h0 : st.mSocketsMax = 0
    · rw [if_pos h0, selectorScanMax_eq]
      omega
    · rw [if_neg h0]
      exact h

/-! ## C9: the cached highest descriptor -/

/-- C9 — after every sequence of `add` / `remove` operations on a freshly
constructed selector, the cached `mSocketsMax` equals the maximum
descriptor among the tracked sockets (0 when none remain); in particular
removing the holder of the maximum and adding a smaller descriptor can
never leave the removed value cached, because `remove` zeroes the cache
and rescans the remaining sockets whenever the erased descriptor carried
the maximum. -/
theorem selector_max_invariant (ops : List SelOp) (r w f : Option (List ℕ)) :
    (applyOps ops (freshSelector r w f)).mSocketsMax =
      listMax (applyOps ops (freshSelector r w f)).mSockets := by
  have aux : ∀ (ops : List SelOp) (st : SelectorSt),
      st.mSocketsMax = listMax st.mSockets →
      (applyOps ops st).mSocketsMax = listMax (applyOps ops st).mSockets := by
    intro ops
    induction ops with
    | nil => intro st h; exact h
    | cons op rest ih =>
      intro st h
      cases op with
      | addOp d => exact ih _ (selector_add_inv st d h)
      | removeOp d => exact ih _ (selector_remove_inv st d h)
  exact aux ops _ rfl

/-! ## C8: `Selector::update` with absent output collections, and clearing -/

/-- C8 counterexample — calling `update()` on a selector whose three output
collections are all absent returns the distinct status -2 without querying
the OS, but reports **nothing** to the error-reporting channel (the error
count, third component of the model's result, is 0), contradicting the
claim that the misconfiguration is reported. -/
theorem selector_misconfigured_unreported :
    Selector.update (freshSelector none none none) SelectOutcome.timeout =
      (-2, false, 0, freshSelector none none none) := by
  rfl

/-- C8 amended — `update()` with all three output collections absent makes
no OS readiness query and returns the distinct status -2, but it is *not*
reported to the error-reporting channel; when at least one output
collection is present and `select` yields timeout or error, every enabled
output collection is left empty (`clearTemp` clears exactly the present
ones). -/
theorem selector_update_contract (st : SelectorSt) (os : SelectOutcome) :
    (st.mReadable = none → st.mWritable = none → st.mFaulty = none →
      Selector.update st os = (-2, false, 0, st)) ∧
    ((st.mReadable.isSome ∨ st.mWritable.isSome ∨ st.mFaulty.isSome) →
      (os = SelectOutcome.timeout ∨ os = SelectOutcome.fail) →
      (Selector.update st os).2.2.2.mReadable = st.mReadable.map (fun _ => []) ∧
      (Selector.update st os).2.2.2.mWritable = st.mWritable.map (fun _ => []) ∧
      (Selector.update st os).2.2.2.mFaulty = st.mFaulty.map (fun _ => [])) := by
  constructor
  · intro hr hw hf
    unfold Selector.update
    rw [if_neg]
    simp [hr, hw, hf]
  · intro hsome hos
    unfold Selector.update
    rw [if_pos hsome]
    rcases hos with h | h <;> subst h <;>
      exact ⟨rfl, rfl, rfl⟩

/-- C8 witness: a selector with a stale entry in the present readable and
faulty collections and an absent writable collection; a timed-out poll
leaves the present collections empty. -/
theorem selector_update_contract_witness :
    (Selector.update (freshSelector (some [5]) none (some [7]))
        SelectOutcome.timeout).2.2.2.mReadable = some [] ∧
    (Selector.update (freshSelector (some [5]) none (some [7]))
        SelectOutcome.timeout).2.2.2.mWritable = none ∧
    (Selector.update (freshSelector (some [5]) none (some [7]))
        SelectOutcome.timeout).2.2.2.mFaulty = some [] :=
  (selector_update_contract (freshSelector (some [5]) none (some [7]))
    SelectOutcome.timeout).2 (by left; rfl) (by left; rfl)

/-! ## C7: receive aborting on a failed OS read -/

/-- C7 — the claim fails on `UdpSocket::receive(PacketBuffer&, const int&)`
(the datagram variant without an address argument): when `::recvfrom`
returns -1 on a fresh default-size buffer, the error **is** reported, but
the function does not return; the failed count **is** ingested
(`mCurrentlyStoredBytes += receivedBytes` turns -1 into `2^64 - 1`), and
the subsequent `buildPackets` call never terminates (its 16-bit compaction
counter can never reach the huge stored count), as the second conjunct
states for every fuel.  Every other receive variant returns immediately as
the claim demands. -/
theorem udp_receive_failure_ingests :
    udpReceiveNoAddrFailStep (freshPB 65535) (-1) = (1, none) ∧
    ∀ fuel, buildLoop fuel (fun _ => 0) (2 ^ 64 - 1) [] = none := by
  have hn : ntohs2 (fun _ => (0 : ℕ)) 0 = 0 := rfl
  have hdiv : ∀ fuel, buildLoop fuel (fun _ => 0) (2 ^ 64 - 1) [] = none := by
    intro fuel
    apply buildLoop_shrink_none
    · norm_num
    · rw [hn]
      omega
    · rw [hn]
      exact shrinkLoop_none _ (by norm_num) _ 0 0 _ (by norm_num)
  refine ⟨?_, hdiv⟩
  unfold udpReceiveNoAddrFailStep
  have harg : ((((freshPB 65535).mCurrentlyStoredBytes : ℤ) + (-1)).emod
      ((SIZE_T_MOD : ℕ) : ℤ)).toNat = 2 ^ 64 - 1 := by
    simp only [freshPB]
    norm_num [SIZE_T_MOD]
    rfl
  rw [harg]
  unfold buildPacketsAt
  simp only [freshPB]
  rw [hdiv]
  rfl

/-! ## C3: the read-size bound of the stream receive loop -/

theorem tcpReceiveReadsSafe_nil (st : PBState) :
    tcpReceiveReadsSafe [] st =
      decide (st.mCurrentlyStoredBytes + st.mSize / 2 ≤ st.mSize) := rfl

theorem tcpReceiveReadsSafe_cons (c : List ℕ) (rest : List (List ℕ))
    (st : PBState) :
    tcpReceiveReadsSafe (c :: rest) st =
      (decide (st.mCurrentlyStoredBytes + st.mSize / 2 ≤ st.mSize) &&
        (if c.isEmpty then true
         else
           match PBState.buildPackets
               { st with
                 mBuffer := writeList st.mBuffer st.mCurrentlyStoredBytes c }
               c.length with
           | none => true
           | some st' => st'.isPacketStored || tcpReceiveReadsSafe rest st')) :=
  rfl

/-- C3 amended — with a buffer of capacity `C ≥ 2 * Packet::maxSize` (the
documented recommendation of twice the maximum packet size) and at most
`maxSize - 1` bytes pending initially, every OS read the stream receive
loop issues satisfies `filledBytes() + C/2 ≤ C`: a terminating
`buildPackets` always leaves fewer than `maxSize` stored bytes (it stops
only below 2 bytes or below the 16-bit declared length), so the next
half-capacity read always fits. -/
theorem receive_read_bound (oracle : List (List ℕ)) (st : PBState)
    (hsize : 2 * packetMaxSize ≤ st.mSize)
    (hstored : st.mCurrentlyStoredBytes ≤ packetMaxSize - 1) :
    tcpReceiveReadsSafe oracle st = true := by
  induction oracle generalizing st with
  | nil =>
    rw [tcpReceiveReadsSafe_nil]
    simp only [decide_eq_true_eq]
    unfold packetMaxSize at hsize hstored
    omega
  | cons c rest ih =>
    rw [tcpReceiveReadsSafe_cons]
    have hok : decide (st.mCurrentlyStoredBytes + st.mSize / 2 ≤ st.mSize) = true := by
      simp only [decide_eq_true_eq]
      unfold packetMaxSize at hsize hstored
      omega
    rw [hok, Bool.true_and]
    by_cases hc : c.isEmpty
    · rw [if_pos hc]
    · rw [if_neg hc]
      cases hb : PBState.buildPackets
          { st with mBuffer := writeList st.mBuffer st.mCurrentlyStoredBytes c }
          c.length with
      | none => rfl
      | some st' =>
        show (st'.isPacketStored || tcpReceiveReadsSafe rest st') = true
        by_cases hp : st'.isPacketStored = true
        · rw [hp, Bool.true_or]
        · unfold PBState.buildPackets buildPacketsAt at hb
          rcases Option.map_eq_some'.mp hb with ⟨r, hr, hmap⟩
          have hle := buildLoop_stored_le _ _ _ _ _ hr
          have hstored' : st'.mCurrentlyStoredBytes ≤ packetMaxSize - 1 := by
            rw [← hmap]
            unfold packetMaxSize
            simpa using hle
          have hsize' : 2 * packetMaxSize ≤ st'.mSize := by
            rw [← hmap]
            simpa using hsize
          rw [ih st' hsize' hstored', Bool.or_true]

/-- C3 witness for the amended bound: a fresh buffer of the recommended
size `2 * maxSize = 131070` passes the read-bound check. -/
theorem receive_read_bound_witness :
    tcpReceiveReadsSafe [] (freshPB 131070) = true :=
  receive_read_bound [] (freshPB 131070) (by decide) (by decide)

/-- C3 counterexample — with the default buffer capacity `C = 65535`
(`Packet::maxSize` itself, permitted by the constructor) the claimed bound
`filledBytes() + C/2 ≤ C` is violated: a packet with declared length
65535 arrives as a 32767-byte read and then a 2-byte read, leaving 32769
bytes pending without completing a message, and a third read is then
issued with `32769 + 32767 = 65536 > 65535` — it would write past the
buffer's capacity. -/
theorem receive_read_overflow :
    tcpReceiveReadsSafe [255 :: 255 :: List.replicate 32765 9, [9, 9]]
      (freshPB 65535) = false := by
  set c1 : List ℕ := 255 :: 255 :: List.replicate 32765 9 with hc1
  have hlen1 : c1.length = 32767 := by
    rw [hc1, List.length_cons, List.length_cons, List.length_replicate]
  have e0 : writeList (fun _ => 0) 0 c1 0 = 255 := by
    rw [writeList_at' (fun _ => 0) 0 0 c1 (by omega) 0 (by norm_num), hc1]
    rfl
  have e1 : writeList (fun _ => 0) 0 c1 1 = 255 := by
    rw [writeList_at' (fun _ => 0) 0 1 c1 (by omega) 1 (by norm_num), hc1]
    rfl
  have hn1 : ntohs2 (writeList (fun _ => 0) 0 c1) 0 = 65535 := by
    unfold ntohs2 byteAt
    rw [show (0 : ℤ) + 1 = 1 by norm_num, e0, e1]
  have hb1 :
      PBState.buildPackets
        ⟨writeList (freshPB 65535).mBuffer
          (freshPB 65535).mCurrentlyStoredBytes c1,
         (freshPB 65535).mSize, (freshPB 65535).mCurrentlyStoredBytes,
         (freshPB 65535).mStoredPackets⟩ c1.length =
      some ⟨writeList (fun _ => 0) 0 c1, 65535, 32767, []⟩ := by
    unfold PBState.buildPackets buildPacketsAt
    simp only [freshPB]
    rw [hlen1]
    norm_num
    rw [buildLoop_noop' _ _ _ (Or.inr (by rw [hn1]; norm_num)) 32769 (by norm_num)]
    exact ⟨_, _, _, rfl, rfl, rfl, rfl⟩
  rw [tcpReceiveReadsSafe_cons, hb1]
  have hok1 : decide ((freshPB 65535).mCurrentlyStoredBytes +
      (freshPB 65535).mSize / 2 ≤ (freshPB 65535).mSize) = true := by rfl
  rw [hok1, Bool.true_and, if_neg (by rw [hc1]; decide)]
  set st1 : PBState := ⟨writeList (fun _ => 0) 0 c1, 65535, 32767, []⟩ with hst1
  show (PBState.isPacketStored st1 || tcpReceiveReadsSafe [[9, 9]] st1) = false
  rw [show PBState.isPacketStored st1 = false from by rw [hst1]; rfl, Bool.false_or]
  have f0 : writeList (writeList (fun _ => 0) 0 c1) 32767 [9, 9] 0 = 255 := by
    rw [writeList_lt _ _ _ _ (by norm_num), e0]
  have f1 : writeList (writeList (fun _ => 0) 0 c1) 32767 [9, 9] 1 = 255 := by
    rw [writeList_lt _ _ _ _ (by norm_num), e1]
  have hn2 : ntohs2 (writeList (writeList (fun _ => 0) 0 c1) 32767 [9, 9]) 0
      = 65535 := by
    unfold ntohs2 byteAt
    rw [show (0 : ℤ) + 1 = 1 by norm_num, f0, f1]
  have hb2 :
      PBState.buildPackets
        ⟨writeList st1.mBuffer st1.mCurrentlyStoredBytes [9, 9],
         st1.mSize, st1.mCurrentlyStoredBytes, st1.mStoredPackets⟩
        ([9, 9] : List ℕ).length =
      some ⟨writeList (writeList (fun _ => 0) 0 c1) 32767 [9, 9],
        65535, 32769, []⟩ := by
    rw [hst1]
    unfold PBState.buildPackets buildPacketsAt
    norm_num
    rw [buildLoop_noop' _ _ _ (Or.inr (by rw [hn2]; norm_num)) 32771 (by norm_num)]
    exact ⟨_, _, _, rfl, rfl, rfl, rfl⟩
  have hok2 : decide (st1.mCurrentlyStoredBytes + st1.mSize / 2 ≤ st1.mSize)
      = true := by
    rw [hst1]
    norm_num
  rw [tcpReceiveReadsSafe_cons, hok2, Bool.true_and, if_neg (by decide), hb2]
  set st2 : PBState := ⟨writeList (writeList (fun _ => 0) 0 c1) 32767 [9, 9],
    65535, 32769, []⟩ with hst2
  show (PBState.isPacketStored st2 || tcpReceiveReadsSafe [] st2) = false
  rw [show PBState.isPacketStored st2 = false from by rw [hst2]; rfl, Bool.false_or,
    tcpReceiveReadsSafe_nil, hst2]
  norm_num

/-! ## Serialization and byte-level agreement lemmas -/

theorem getD_drop (l : List ℕ) (n i : ℕ) :
    (l.drop n).getD i 0 = l.getD (n + i) 0 := by
  rw [List.getD_eq_getElem?_getD, List.getD_eq_getElem?_getD, List.getElem?_drop]

theorem serializePacket_length (p : Packet) :
    (serializePacket p).length = p.mData.length + 4 := by
  simp [serializePacket]

theorem serializePacket_getD_payload (p : Packet) (t : ℕ) :
    (serializePacket p).getD (4 + t) 0 = p.mData.getD t 0 := by
  show ((p.mSize / 256) :: (p.mSize % 256) :: (p.mType / 256) ::
    (p.mType % 256) :: p.mData).getD (4 + t) 0 = p.mData.getD t 0
  rw [show 4 + t = (t + 3) + 1 by omega, List.getD_cons_succ]
  rw [show t + 3 = (t + 2) + 1 by omega, List.getD_cons_succ]
  rw [show t + 2 = (t + 1) + 1 by omega, List.getD_cons_succ]
  rw [List.getD_cons_succ]

theorem decode_wire_size (p : Packet) (buf : ℤ → ℕ) (hsle : p.mSize ≤ 65535)
    (h0 : buf 0 = (serializePacket p).getD 0 0)
    (h1 : buf 1 = (serializePacket p).getD 1 0) :
    ntohs2 buf 0 = p.mSize := by
  have hw0 : (serializePacket p).getD 0 0 = p.mSize / 256 := rfl
  have hw1 : (serializePacket p).getD 1 0 = p.mSize % 256 := rfl
  unfold ntohs2 byteAt
  rw [show (0 : ℤ) + 1 = 1 by norm_num, h0, h1, hw0, hw1]
  omega

theorem decode_wire_type (p : Packet) (buf : ℤ → ℕ) (hty : p.mType < 65536)
    (h2 : buf 2 = (serializePacket p).getD 2 0)
    (h3 : buf 3 = (serializePacket p).getD 3 0) :
    ntohs2 buf 2 = p.mType := by
  have hw2 : (serializePacket p).getD 2 0 = p.mType / 256 := rfl
  have hw3 : (serializePacket p).getD 3 0 = p.mType % 256 := rfl
  unfold ntohs2 byteAt
  rw [show (2 : ℤ) + 1 = 3 by norm_num, h2, h3, hw2, hw3]
  omega

theorem payload_wire (p : Packet) (buf : ℤ → ℕ)
    (hsz : p.mSize = p.mData.length + 4)
    (hdb : ∀ b ∈ p.mData, b < 256)
    (hag : ∀ k : ℕ, k < p.mSize → buf (k : ℤ) = (serializePacket p).getD k 0) :
    payloadBytes buf p.mSize = p.mData := by
  unfold payloadBytes
  apply List.ext_getElem
  · simp only [List.length_map, List.length_range]
    omega
  · intro i h1 h2
    simp only [List.getElem_map, List.getElem_range]
    unfold byteAt
    have hag4 := hag (4 + i) (by omega)
    have hcast : ((2 * 2 + i : ℕ) : ℤ) = ((4 + i : ℕ) : ℤ) := by push_cast; ring
    rw [hcast, hag4, serializePacket_getD_payload]
    rw [List.getD_eq_getElem p.mData 0 h2]
    exact Nat.mod_eq_of_lt (hdb _ (List.getElem_mem h2))

/-- Extraction of one complete serialized packet lying at the front of the
buffer: the extraction loop pops exactly the original packet (the
reconstructing `Packet` constructor reproduces it) and shifts the
remaining bytes down. -/
theorem extract_wire_head (p : Packet) (buf : ℤ → ℕ) (stored : ℕ)
    (pk : List Packet)
    (hidem : (Packet.construct p.mType p.mData).1 = p)
    (hsz : p.mSize = p.mData.length + 4)
    (hty : p.mType < 65536)
    (hdb : ∀ b ∈ p.mData, b < 256)
    (hsle : p.mSize ≤ 65535)
    (hstle : stored ≤ 65535)
    (hsst : p.mSize ≤ stored)
    (hag : ∀ k : ℕ, k < p.mSize → buf (k : ℤ) = (serializePacket p).getD k 0)
    (fuel : ℕ) :
    buildLoop (fuel + 1) buf stored pk =
      buildLoop fuel
        (memsetZero (shiftBuf buf p.mSize stored) (stored - p.mSize) p.mSize)
        (stored - p.mSize) (pk ++ [p]) := by
  have hb0 : buf 0 = (serializePacket p).getD 0 0 := by
    have h := hag 0 (by omega)
    push_cast at h
    exact h
  have hb1 : buf 1 = (serializePacket p).getD 1 0 := by
    have h := hag 1 (by omega)
    push_cast at h
    exact h
  have hb2 : buf 2 = (serializePacket p).getD 2 0 := by
    have h := hag 2 (by omega)
    push_cast at h
    exact h
  have hb3 : buf 3 = (serializePacket p).getD 3 0 := by
    have h := hag 3 (by omega)
    push_cast at h
    exact h
  have hdec := decode_wire_size p buf hsle hb0 hb1
  have hkind := decode_wire_type p buf hty hb2 hb3
  have hpay := payload_wire p buf hsz hdb hag
  rw [buildLoop_extract buf stored pk (by omega) (by rw [hdec]; exact hsst)
    hstle fuel]
  rw [hdec, hkind, hpay, hidem]

theorem writeList_agree (buf : ℤ → ℕ) (w : List ℕ) (n : ℕ) (c : List ℕ)
    (hpre : ∀ k : ℕ, k < n → buf (k : ℤ) = w.getD k 0)
    (hc : ∀ i : ℕ, i < c.length → c.getD i 0 = w.getD (n + i) 0) :
    ∀ k : ℕ, k < n + c.length → writeList buf n c (k : ℤ) = w.getD k 0 := by
  intro k hk
  by_cases hkn : k < n
  · rw [writeList_lt buf n c _ (by exact_mod_cast hkn)]
    exact hpre k hkn
  · rw [writeList_at' buf n (k - n) c (by omega) _ (by omega)]
    rw [hc (k - n) (by omega)]
    congr 1
    omega

theorem feedChunks_cons' (c : List ℕ) (rest : List (List ℕ)) (buf : ℤ → ℕ)
    (size n : ℕ) (pk : List Packet) :
    feedChunks (c :: rest) ⟨buf, size, n, pk⟩ =
      match PBState.buildPackets ⟨writeList buf n c, size, n, pk⟩ c.length with
      | none => none
      | some st' => feedChunks rest st' := rfl

theorem buildPackets_literal (buf : ℤ → ℕ) (size n : ℕ) (pk : List Packet)
    (r : ℕ) :
    PBState.buildPackets ⟨buf, size, n, pk⟩ r = buildPacketsAt size buf (n + r) pk :=
  rfl

theorem feed_empty_chunks :
    ∀ (rest : List (List ℕ)) (buf : ℤ → ℕ) (size : ℕ) (pk : List Packet),
      (∀ c ∈ rest, c = []) →
      ∃ B, feedChunks rest ⟨buf, size, 0, pk⟩ = some ⟨B, size, 0, pk⟩ := by
  intro rest
  induction rest with
  | nil => intro buf size pk _; exact ⟨buf, rfl⟩
  | cons c rest ih =>
    intro buf size pk hall
    have hc : c = [] := hall c (List.mem_cons_self c rest)
    subst hc
    rw [feedChunks_cons']
    have hb : PBState.buildPackets
        ⟨writeList buf 0 ([] : List ℕ), size, 0, pk⟩ ([] : List ℕ).length =
        some ⟨writeList buf 0 [], size, 0, pk⟩ := by
      rw [buildPackets_literal]
      unfold buildPacketsAt
      rw [buildLoop_noop' _ _ _ (Or.inl (by norm_num)) _ (by norm_num)]
      rfl
    rw [hb]
    exact ih _ size pk fun c hc => hall c (List.mem_cons_of_mem _ hc)

/-- Feeding a serialized packet through `buildPackets` in arbitrary chunk
splits: starting from a strict prefix of the wire image already in the
buffer, feeding the remaining bytes in any chunking yields exactly the one
packet in the queue with the buffer drained. -/
theorem feed_chunks_wire (p : Packet)
    (hidem : (Packet.construct p.mType p.mData).1 = p)
    (hsz : p.mSize = p.mData.length + 4)
    (hty : p.mType < 65536)
    (hdb : ∀ b ∈ p.mData, b < 256)
    (hsle : p.mSize ≤ 65535) :
    ∀ (chunks : List (List ℕ)) (buf : ℤ → ℕ) (size n : ℕ),
      n < p.mSize →
      (∀ k : ℕ, k < n → buf (k : ℤ) = (serializePacket p).getD k 0) →
      chunks.flatten = (serializePacket p).drop n →
      ∃ B, feedChunks chunks ⟨buf, size, n, []⟩ = some ⟨B, size, 0, [p]⟩ := by
  intro chunks
  induction chunks with
  | nil =>
    intro buf size n hn hag hflat
    exfalso
    have h := congrArg List.length hflat
    rw [List.flatten_nil, List.length_nil, List.length_drop] at h
    have h2 : (serializePacket p).length ≤ n := Nat.sub_eq_zero_iff_le.mp h.symm
    rw [serializePacket_length] at h2
    omega
  | cons c rest ih =>
    intro buf size n hn hag hflat
    rw [List.flatten_cons] at hflat
    have hlen : c.length + rest.flatten.length = p.mData.length + 4 - n := by
      have h := congrArg List.length hflat
      simp only [List.length_append, List.length_drop, serializePacket_length] at h
      omega
    have hchunk : ∀ i : ℕ, i < c.length →
        c.getD i 0 = (serializePacket p).getD (n + i) 0 := by
      intro i hi
      have h1 : (c ++ rest.flatten).getD i 0 = c.getD i 0 :=
        List.getD_append _ _ _ _ hi
      rw [← h1, hflat, getD_drop]
    have hag' := writeList_agree buf (serializePacket p) n c hag hchunk
    rw [feedChunks_cons', buildPackets_literal]
    unfold buildPacketsAt
    by_cases hcomp : n + c.length = p.mSize
    · have hfuel : n + c.length + 2 = (n + c.length + 1) + 1 := rfl
      rw [hfuel, extract_wire_head p (writeList buf n c) (n + c.length) []
        hidem hsz hty hdb hsle (by omega) (by omega)
        (fun k hk => hag' k (by omega)) (n + c.length + 1)]
      rw [show n + c.length - p.mSize = 0 from by omega, List.nil_append]
      rw [buildLoop_noop' _ _ _ (Or.inl (by norm_num)) _ (by norm_num)]
      have hrest : ∀ c' ∈ rest, c' = [] := by
        have hlen0 : rest.flatten.length = 0 := by omega
        have hnil : rest.flatten = [] := List.eq_nil_of_length_eq_zero hlen0
        exact List.flatten_eq_nil_iff.mp hnil
      exact feed_empty_chunks rest _ size [p] hrest
    · have hlt : n + c.length < p.mSize := by omega
      have hor : n + c.length < 2 ∨
          n + c.length < ntohs2 (writeList buf n c) 0 := by
        by_cases h2 : 2 ≤ n + c.length
        · right
          have hb0 : writeList buf n c 0 = (serializePacket p).getD 0 0 := by
            have h := hag' 0 (by omega)
            push_cast at h
            exact h
          have hb1 : writeList buf n c 1 = (serializePacket p).getD 1 0 := by
            have h := hag' 1 (by omega)
            push_cast at h
            exact h
          rw [decode_wire_size p _ hsle hb0 hb1]
          exact hlt
        · left
          omega
      rw [buildLoop_noop' _ _ _ hor _ (by norm_num)]
      exact ih (writeList buf n c) size (n + c.length) hlt hag'
        (by
          have h := congrArg (fun l => List.drop c.length l) hflat
          simp only [List.drop_left] at h
          rw [h, List.drop_drop])

/-! ## C1: framing round trip under arbitrary chunking -/

/-- C1 — for every message with `kind != EMPTY_PACKET_TYPE` (a 16-bit
kind) and payload of at most `maxSize - 4` bytes, serializing it
(2-byte network-order length, 2-byte network-order kind, payload) and
feeding the bytes through `buildPackets` in **any** chunking yields
exactly one pending packet, and `getPacket` dequeues a packet whose kind,
size and payload equal the original message's, leaving the queue empty. -/
theorem framing_round_trip (kind : ℕ) (data : List ℕ) (size : ℕ)
    (chunks : List (List ℕ))
    (hkind : kind ≠ EMPTY_PACKET_TYPE) (hk : kind < 65536)
    (hlen : data.length ≤ packetMaxSize - 4)
    (hdb : ∀ b ∈ data, b < 256)
    (hjoin : chunks.flatten = serializePacket (Packet.construct kind data).1) :
    ∃ st', feedChunks chunks (freshPB size) = some st' ∧
      st'.mStoredPackets = [(Packet.construct kind data).1] ∧
      st'.mCurrentlyStoredBytes = 0 ∧
      ∃ st'', PBState.getPacket st' =
          some ((Packet.construct kind data).1, st'') ∧
        st''.mStoredPackets = [] := by
  have hcn := Packet.construct_normal kind data hkind (by
    unfold packetMaxSize at hlen ⊢
    omega)
  set p : Packet := (Packet.construct kind data).1 with hp
  have hpfields : p = { mType := kind, mSize := data.length + 2 * 2, mData := data } := by
    rw [hp, hcn]
  have hidem : (Packet.construct p.mType p.mData).1 = p := by
    rw [hp]
    exact Packet.construct_idem kind data
  have hsz : p.mSize = p.mData.length + 4 := by
    rw [hpfields]
  have hty : p.mType < 65536 := by
    rw [hpfields]
    exact hk
  have hdb' : ∀ b ∈ p.mData, b < 256 := by
    rw [hpfields]
    exact hdb
  have hsle : p.mSize ≤ 65535 := by
    rw [hpfields]
    show data.length + 2 * 2 ≤ 65535
    unfold packetMaxSize at hlen
    omega
  have hmain := feed_chunks_wire p hidem hsz hty hdb' hsle chunks
    (fun _ => 0) size 0 (by omega) (fun k hk => absurd hk (by omega))
    (by rw [List.drop_zero]; exact hjoin)
  rcases hmain with ⟨B, hB⟩
  refine ⟨⟨B, size, 0, [p]⟩, hB, rfl, rfl, ⟨B, size, 0, []⟩, rfl, rfl⟩

/-- C1 witness: kind 1, payload `[42]`, fed once as a 1-2-2 byte split. -/
theorem framing_round_trip_witness :
    ∃ st', feedChunks [[0], [5, 0], [1, 42]] (freshPB 65535) = some st' ∧
      st'.mStoredPackets = [(Packet.construct 1 [42]).1] ∧
      st'.mCurrentlyStoredBytes = 0 ∧
      ∃ st'', PBState.getPacket st' =
          some ((Packet.construct 1 [42]).1, st'') ∧
        st''.mStoredPackets = [] :=
  framing_round_trip 1 [42] 65535 [[0], [5, 0], [1, 42]]
    (by decide) (by decide) (by decide)
    (by intro b hb; simp at hb; omega) (by decide)

/-! ## C2: multi-message batching -/

theorem getD_append_right' (l l' : List ℕ) (k : ℕ) :
    (l ++ l').getD (l.length + k) 0 = l'.getD k 0 := by
  rw [List.getD_append_right _ _ _ _ (by omega)]
  congr 1
  omega

/-- A single run of the extraction loop over a buffer holding the
concatenated wire images of a list of well-formed packets pops every
packet, in order, and drains the buffer — provided the concatenation fits
the 16-bit compaction counter (total length at most 65535). -/
theorem extract_all :
    ∀ (ps : List Packet) (buf : ℤ → ℕ) (pk : List Packet) (fuel : ℕ),
      (∀ p ∈ ps, wfPacket p) →
      (ps.map serializePacket).flatten.length ≤ 65535 →
      (∀ k : ℕ, k < (ps.map serializePacket).flatten.length →
        buf (k : ℤ) = (ps.map serializePacket).flatten.getD k 0) →
      ps.length < fuel →
      ∃ B, buildLoop fuel buf (ps.map serializePacket).flatten.length pk =
        some (B, 0, pk ++ ps) := by
  intro ps
  induction ps with
  | nil =>
    intro buf pk fuel _ _ _ hfuel
    refine ⟨buf, ?_⟩
    simp only [List.map_nil, List.flatten_nil, List.length_nil, List.append_nil]
    exact buildLoop_noop' buf 0 pk (Or.inl (by norm_num)) fuel (by omega)
  | cons p ps ih =>
    intro buf pk fuel hwf hle hag hfuel
    obtain ⟨hidem, hsz, hty, hdb⟩ := hwf p (List.mem_cons_self p ps)
    have hflat : ((p :: ps).map serializePacket).flatten =
        serializePacket p ++ (ps.map serializePacket).flatten := by
      rw [List.map_cons, List.flatten_cons]
    have hwlen : (serializePacket p).length = p.mSize := by
      rw [serializePacket_length, hsz]
    have hstored : ((p :: ps).map serializePacket).flatten.length =
        p.mSize + (ps.map serializePacket).flatten.length := by
      rw [hflat, List.length_append, hwlen]
    rw [hstored] at hle hag ⊢
    have hms4 : 4 ≤ p.mSize := by omega
    have hsle : p.mSize ≤ 65535 := by omega
    cases fuel with
    | zero => exact absurd hfuel (by omega)
    | succ fuel =>
      have hagp : ∀ k : ℕ, k < p.mSize →
          buf (k : ℤ) = (serializePacket p).getD k 0 := by
        intro k hk
        rw [hag k (by omega), hflat, List.getD_append _ _ _ _ (by omega)]
      rw [extract_wire_head p buf
        (p.mSize + (ps.map serializePacket).flatten.length) pk hidem hsz hty
        hdb hsle hle (by omega) hagp fuel]
      have hrem : p.mSize + (ps.map serializePacket).flatten.length - p.mSize =
          (ps.map serializePacket).flatten.length := by omega
      rw [hrem]
      have hag' : ∀ k : ℕ, k < (ps.map serializePacket).flatten.length →
          memsetZero
            (shiftBuf buf p.mSize
              (p.mSize + (ps.map serializePacket).flatten.length))
            ((ps.map serializePacket).flatten.length) p.mSize (k : ℤ) =
          (ps.map serializePacket).flatten.getD k 0 := by
        intro k hk
        simp only [memsetZero, shiftBuf]
        rw [if_neg (by omega), if_pos (by push_cast; omega)]
        have hcast : (k : ℤ) + (p.mSize : ℤ) = ((p.mSize + k : ℕ) : ℤ) := by
          push_cast
          ring
        rw [hcast, hag (p.mSize + k) (by omega), hflat]
        rw [show p.mSize + k = (serializePacket p).length + k from by rw [hwlen]]
        exact getD_append_right' _ _ k
      obtain ⟨B, hB⟩ := ih
        (memsetZero
          (shiftBuf buf p.mSize
            (p.mSize + (ps.map serializePacket).flatten.length))
          ((ps.map serializePacket).flatten.length) p.mSize)
        (pk ++ [p]) fuel
        (fun q hq => hwf q (List.mem_cons_of_mem _ hq)) (by omega) hag'
        (by simp only [List.length_cons] at hfuel; omega)
      refine ⟨B, ?_⟩
      rw [hB, List.append_assoc, List.singleton_append]

/-- C2 amended — for three packets of the shape the `Packet` constructor
produces (well-formed serialized messages, each with declared length ≥ 4),
writing the concatenation of their wire images into a fresh buffer and
calling `buildPackets` **once** leaves the pending queue containing
exactly `[m1, m2, m3]` in that order with the buffer drained — provided
the concatenated length is at most 65535 (beyond that the 16-bit
compaction counter of the extraction loop diverges, see the
counterexample). -/
theorem multi_message_batching (p1 p2 p3 : Packet) (size : ℕ)
    (h1 : wfPacket p1) (h2 : wfPacket p2) (h3 : wfPacket p3)
    (htot : (serializePacket p1 ++ serializePacket p2 ++
      serializePacket p3).length ≤ 65535) :
    ∃ B, feedChunks
        [serializePacket p1 ++ serializePacket p2 ++ serializePacket p3]
        (freshPB size) = some ⟨B, size, 0, [p1, p2, p3]⟩ := by
  have hLW : ([p1, p2, p3].map serializePacket).flatten =
      serializePacket p1 ++ serializePacket p2 ++ serializePacket p3 := by
    simp [List.append_assoc]
  have hlen : ([p1, p2, p3].map serializePacket).flatten.length =
      (serializePacket p1 ++ serializePacket p2 ++
        serializePacket p3).length := by
    rw [hLW]
  have hag : ∀ k : ℕ, k < ([p1, p2, p3].map serializePacket).flatten.length →
      writeList (fun _ => 0) 0
        (serializePacket p1 ++ serializePacket p2 ++ serializePacket p3)
        (k : ℤ) =
      ([p1, p2, p3].map serializePacket).flatten.getD k 0 := by
    intro k hk
    rw [writeList_at' (fun _ => 0) 0 k _ (by omega) _ (by push_cast; ring), hLW]
  have hwf : ∀ p ∈ [p1, p2, p3], wfPacket p := by
    intro p hp
    simp only [List.mem_cons, List.not_mem_nil, or_false] at hp
    rcases hp with h | h | h <;> subst h <;> assumption
  have hW4 : 4 ≤ (serializePacket p1 ++ serializePacket p2 ++
      serializePacket p3).length := by
    rw [List.length_append, List.length_append, serializePacket_length,
      serializePacket_length, serializePacket_length]
    omega
  obtain ⟨B, hB⟩ := extract_all [p1, p2, p3]
    (writeList (fun _ => 0) 0
      (serializePacket p1 ++ serializePacket p2 ++ serializePacket p3))
    [] ((serializePacket p1 ++ serializePacket p2 ++
      serializePacket p3).length + 2)
    hwf (by omega) hag (by simp only [List.length_cons, List.length_nil]; omega)
  rw [hlen, List.nil_append] at hB
  refine ⟨B, ?_⟩
  show feedChunks
      [serializePacket p1 ++ serializePacket p2 ++ serializePacket p3]
      (⟨fun _ => 0, size, 0, []⟩ : PBState) = some ⟨B, size, 0, [p1, p2, p3]⟩
  rw [feedChunks_cons']
  have hbp : PBState.buildPackets
      ⟨writeList (fun _ => 0) 0
        (serializePacket p1 ++ serializePacket p2 ++ serializePacket p3),
        size, 0, []⟩
      (serializePacket p1 ++ serializePacket p2 ++
        serializePacket p3).length = some ⟨B, size, 0, [p1, p2, p3]⟩ := by
    rw [buildPackets_literal]
    unfold buildPacketsAt
    rw [Nat.zero_add, hB]
    rfl
  rw [hbp]
  rfl

/-- C2 witness: the three messages `(1, [7])`, `(2, [8])`, `(3, [9])`
concatenated into a default-size buffer. -/
theorem multi_message_batching_witness :
    ∃ B, feedChunks
        [serializePacket ⟨1, 5, [7]⟩ ++ serializePacket ⟨2, 5, [8]⟩ ++
          serializePacket ⟨3, 5, [9]⟩]
        (freshPB 65535) =
      some ⟨B, 65535, 0, [⟨1, 5, [7]⟩, ⟨2, 5, [8]⟩, ⟨3, 5, [9]⟩]⟩ :=
  multi_message_batching ⟨1, 5, [7]⟩ ⟨2, 5, [8]⟩ ⟨3, 5, [9]⟩ 65535
    (by decide) (by decide) (by decide) (by decide)

/-- C2 counterexample — three well-formed serialized messages (each with
declared length ≥ 4) whose concatenation is 65545 bytes: one call to
`buildPackets` does **not** leave the queue holding the three messages —
it never returns at all, because the 16-bit counter of the compaction loop
can never reach the stored count 65545 (the buffer of size 131070 is ample;
the divergence is inherent to the loop). -/
theorem multi_message_batching_oversized_total :
    wfPacket ⟨1, 65535, List.replicate 65531 7⟩ ∧
    wfPacket ⟨2, 5, [8]⟩ ∧ wfPacket ⟨3, 5, [9]⟩ ∧
    feedChunks
      [serializePacket ⟨1, 65535, List.replicate 65531 7⟩ ++
        serializePacket ⟨2, 5, [8]⟩ ++ serializePacket ⟨3, 5, [9]⟩]
      (freshPB 131070) = none := by
  have hwf1 : wfPacket ⟨1, 65535, List.replicate 65531 7⟩ := by
    refine ⟨?_, ?_, ?_, ?_⟩
    · show (Packet.construct 1 (List.replicate 65531 7)).1 = _
      unfold Packet.construct
      rw [if_neg (by unfold EMPTY_PACKET_TYPE; norm_num),
        if_neg (by rw [List.length_replicate]; unfold packetMaxSize; norm_num)]
      show (⟨1, (List.replicate 65531 7).length + 2 * 2,
        List.replicate 65531 7⟩ : Packet) = ⟨1, 65535, List.replicate 65531 7⟩
      rw [List.length_replicate]
    · show (65535 : ℕ) = (List.replicate 65531 7).length + 4
      rw [List.length_replicate]
    · show (1 : ℕ) < 65536
      norm_num
    · intro b hb
      rw [List.eq_of_mem_replicate hb]
      norm_num
  have hlen1 : (serializePacket (⟨1, 65535, List.replicate 65531 7⟩ :
      Packet)).length = 65535 := by
    rw [serializePacket_length]
    show (List.replicate 65531 7).length + 4 = 65535
    rw [List.length_replicate]
  have hlen2 : (serializePacket (⟨2, 5, [8]⟩ : Packet)).length = 5 := by
    rw [serializePacket_length]
    rfl
  have hlen3 : (serializePacket (⟨3, 5, [9]⟩ : Packet)).length = 5 := by
    rw [serializePacket_length]
    rfl
  have hlenW : (serializePacket (⟨1, 65535, List.replicate 65531 7⟩ : Packet) ++
      serializePacket (⟨2, 5, [8]⟩ : Packet) ++
      serializePacket (⟨3, 5, [9]⟩ : Packet)).length = 65545 := by
    rw [List.length_append, List.length_append, hlen1, hlen2, hlen3]
  have hb0 : writeList (fun _ => 0) 0
      (serializePacket (⟨1, 65535, List.replicate 65531 7⟩ : Packet) ++
        serializePacket (⟨2, 5, [8]⟩ : Packet) ++
        serializePacket (⟨3, 5, [9]⟩ : Packet)) (0 : ℤ) =
      (serializePacket (⟨1, 65535, List.replicate 65531 7⟩ : Packet)).getD 0 0 := by
    rw [writeList_at' (fun _ => 0) 0 0 _ (by omega) 0 (by norm_num)]
    rw [List.getD_append _ _ _ _
      (by rw [List.length_append, hlen1, hlen2]; norm_num)]
    rw [List.getD_append _ _ _ _ (by rw [hlen1]; norm_num)]
  have hb1 : writeList (fun _ => 0) 0
      (serializePacket (⟨1, 65535, List.replicate 65531 7⟩ : Packet) ++
        serializePacket (⟨2, 5, [8]⟩ : Packet) ++
        serializePacket (⟨3, 5, [9]⟩ : Packet)) (1 : ℤ) =
      (serializePacket (⟨1, 65535, List.replicate 65531 7⟩ : Packet)).getD 1 0 := by
    rw [writeList_at' (fun _ => 0) 0 1 _ (by omega) 1 (by norm_num)]
    rw [List.getD_append _ _ _ _
      (by rw [List.length_append, hlen1, hlen2]; norm_num)]
    rw [List.getD_append _ _ _ _ (by rw [hlen1]; norm_num)]
  have hdec : ntohs2 (writeList (fun _ => 0) 0
      (serializePacket (⟨1, 65535, List.replicate 65531 7⟩ : Packet) ++
        serializePacket (⟨2, 5, [8]⟩ : Packet) ++
        serializePacket (⟨3, 5, [9]⟩ : Packet))) 0 = 65535 :=
    decode_wire_size ⟨1, 65535, List.replicate 65531 7⟩ _
      (by show (65535 : ℕ) ≤ 65535; norm_num) hb0 hb1
  have hdiv : ∀ fuel, buildLoop fuel
      (writeList (fun _ => 0) 0
        (serializePacket (⟨1, 65535, List.replicate 65531 7⟩ : Packet) ++
          serializePacket (⟨2, 5, [8]⟩ : Packet) ++
          serializePacket (⟨3, 5, [9]⟩ : Packet))) 65545 [] = none :=
    buildLoop_shrink_none _ 65545 [] (by norm_num) (by rw [hdec]; norm_num)
      (by
        rw [hdec]
        exact shrinkLoop_none 65545 (by norm_num) (65545 + 2) 65535 65535 _
          (by norm_num))
  refine ⟨hwf1, by decide, by decide, ?_⟩
  show feedChunks
      [serializePacket (⟨1, 65535, List.replicate 65531 7⟩ : Packet) ++
        serializePacket (⟨2, 5, [8]⟩ : Packet) ++
        serializePacket (⟨3, 5, [9]⟩ : Packet)]
      (⟨fun _ => 0, 131070, 0, []⟩ : PBState) = none
  rw [feedChunks_cons']
  have hbp : PBState.buildPackets
      ⟨writeList (fun _ => 0) 0
        (serializePacket (⟨1, 65535, List.replicate 65531 7⟩ : Packet) ++
          serializePacket (⟨2, 5, [8]⟩ : Packet) ++
          serializePacket (⟨3, 5, [9]⟩ : Packet)), 131070, 0, []⟩
      (serializePacket (⟨1, 65535, List.replicate 65531 7⟩ : Packet) ++
        serializePacket (⟨2, 5, [8]⟩ : Packet) ++
        serializePacket (⟨3, 5, [9]⟩ : Packet)).length = none := by
    rw [buildPackets_literal]
    unfold buildPacketsAt
    rw [Nat.zero_add, hlenW, hdiv]
    rfl
  rw [hbp]

end tnnf
